import Mathlib

/-!
Verification of the amortization engine of `src/App.py` (International
Mortgage Calculator).  All numeric state is embedded into `ℚ` (the Python
code uses floats; the claims under study are about the algorithmic
structure — loop policies, clamping, date arithmetic, exact-arithmetic
identities — so the rational embedding is the faithful exact-arithmetic
reading of the code).  Python `datetime.date` values are embedded as a
`Date` structure together with the validity predicate that `date.replace`
enforces (proleptic Gregorian calendar, years 1..9999); a failing
`replace` (Python `ValueError`) is modelled as `none`.  Every function
that the source wraps in a broad `try/except` is embedded as an
`Option`-valued function, `none` standing for "an exception was raised
and caught" (the schedule generators then return an empty result, the
summary returns `None`).
-/

set_option maxRecDepth 100000

section MortgageVerification

attribute [local semireducible] Rat.mul Rat.inv Rat.add Rat.sub Rat.ofScientific

/-! ### Calendar dates (embedding of Python `datetime.date`) -/

/-- Gregorian leap-year rule, as used by Python's `datetime`. -/
def isLeap (y : ℤ) : Prop := (y % 4 = 0 ∧ y % 100 ≠ 0) ∨ y % 400 = 0

instance (y : ℤ) : Decidable (isLeap y) := by unfold isLeap; infer_instance

/-- Number of days of month `m` in year `y` (Python `calendar` rules). -/
def daysInMonth (y : ℤ) (m : ℕ) : ℕ :=
  if m = 2 then (if isLeap y then 29 else 28)
  else if m = 4 ∨ m = 6 ∨ m = 9 ∨ m = 11 then 30
  else 31

/-- A calendar date: raw components.  Python guarantees every constructed
`datetime.date` satisfies `validYMD`; we carry that as a side predicate. -/
structure Date where
  year : ℤ
  month : ℕ
  day : ℕ
  deriving DecidableEq, Repr

/-- Validity condition enforced by the `datetime.date` constructor and by
`date.replace` (which re-validates the resulting date). -/
def validYMD (y : ℤ) (m d : ℕ) : Prop :=
  1 ≤ y ∧ y ≤ 9999 ∧ 1 ≤ m ∧ m ≤ 12 ∧ 1 ≤ d ∧ d ≤ daysInMonth y m

instance (y : ℤ) (m d : ℕ) : Decidable (validYMD y m d) := by
  unfold validYMD; infer_instance

/-- Smart constructor: `some` on a valid date, `none` for the
`ValueError` a Python `date` constructor / `replace` raises. -/
def mkDate (y : ℤ) (m d : ℕ) : Option Date :=
  if validYMD y m d then some ⟨y, m, d⟩ else none

/-- Validity of a `Date` value (every Python `date` object satisfies it). -/
def Date.valid (dt : Date) : Prop := validYMD dt.year dt.month dt.day

instance (dt : Date) : Decidable dt.valid := by unfold Date.valid; infer_instance

/-- Embedding of `d.replace(year=y)` — keeps month and day, re-validates. -/
def replaceYear (dt : Date) (y : ℤ) : Option Date := mkDate y dt.month dt.day

/-- Embedding of `d.replace(day=day)` — keeps year and month, re-validates. -/
def replaceDay (dt : Date) (d : ℕ) : Option Date := mkDate dt.year dt.month d

/-- Embedding of the month-advance step of `generate_monthly_schedule`
(`App.py` lines 347–350): December rolls over to January of the next
year, otherwise only the month is incremented; the day is kept. -/
def nextMonth (dt : Date) : Option Date :=
  if dt.month = 12 then mkDate (dt.year + 1) 1 dt.day
  else mkDate dt.year (dt.month + 1) dt.day

/-- Month-granularity position of a date on the time line, used for
reasoning about repeated `nextMonth` steps. -/
def posM (dt : Date) : ℤ := dt.year * 12 + dt.month

/-! ### Loan input (the parameters of `calculate_mortgage`) -/

/-- The eleven parameters of `calculate_mortgage` /
`generate_yearly_schedule` / `generate_monthly_schedule`.  `overrideRate`
and `overrideTerm` model the optional keyword arguments (`None` ↦
`Option.none`). -/
structure LoanInput where
  homeValue : ℚ
  downPayment : ℚ
  interestRate : ℚ
  loanTermYears : ℤ
  startDate : Date
  propertyTax : ℚ
  pmiRate : ℚ
  homeInsurance : ℚ
  hoaFee : ℚ
  overrideRate : Option ℚ
  overrideTerm : Option ℤ
  deriving DecidableEq

/-- Effective annual interest rate in percent after override resolution
(`App.py` lines 106–107: the override applies iff it is not `None` and
`> 0`). -/
def effRate (inp : LoanInput) : ℚ :=
  match inp.overrideRate with
  | some q => if 0 < q then q else inp.interestRate
  | none => inp.interestRate

/-- Effective loan term in years after override resolution (`App.py`
lines 103–104: a `None` or non-positive override is ignored; note that
Python's `if override_term and override_term > 0` also ignores `0` via
truthiness, which coincides with the `> 0` test). -/
def effYears (inp : LoanInput) : ℤ :=
  match inp.overrideTerm with
  | some t => if 0 < t then t else inp.loanTermYears
  | none => inp.loanTermYears

/-- Embedding of `loan_amount = home_value - down_payment` (line 116). -/
def loanAmount (inp : LoanInput) : ℚ := inp.homeValue - inp.downPayment

/-- Embedding of `monthly_interest_rate = interest_rate_decimal / 12`
(lines 100, 107, 117). -/
def monthlyRate (inp : LoanInput) : ℚ := effRate inp / 100 / 12

/-- Embedding of `loan_term_months = loan_term_years * 12` (line 109). -/
def termMonths (inp : LoanInput) : ℤ := effYears inp * 12

/-- The condition under which the fixed-payment computation of lines
119–126 raises `ZeroDivisionError` in Python: for a positive monthly rate
the denominator `(1+r)^T - 1` is exactly zero, otherwise the divisor is
the integer `loan_term_months` itself. -/
def divGuard (r : ℚ) (t : ℤ) : Bool :=
  if 0 < r then decide ((1 + r) ^ t - 1 = 0) else decide ((t : ℚ) = 0)

/-- Embedding of the fixed-payment formula of lines 119–126 (repeated
verbatim at lines 204–211 and 298–305):
`l * (r * (1+r)^T) / ((1+r)^T - 1)` for `r > 0`, else `l / T`. -/
def fixedPayment (l r : ℚ) (t : ℤ) : ℚ :=
  if 0 < r then l * (r * (1 + r) ^ t) / ((1 + r) ^ t - 1)
  else l / (t : ℚ)

/-- Embedding of `pmi_monthly` (line 128). -/
def pmiMonthlyOf (inp : LoanInput) : ℚ :=
  if 0 < loanAmount inp then loanAmount inp * (inp.pmiRate / 100) / 12 else 0

/-- Embedding of `property_tax_monthly` (line 129). -/
def propertyTaxMonthlyOf (inp : LoanInput) : ℚ :=
  if 0 < inp.propertyTax then inp.propertyTax / 12 else 0

/-- Embedding of `home_insurance_monthly` (line 130). -/
def homeInsuranceMonthlyOf (inp : LoanInput) : ℚ :=
  if 0 < inp.homeInsurance then inp.homeInsurance / 12 else 0

/-- The result dictionary of `calculate_mortgage` (lines 147–159).  The
payoff date is kept as a full `Date`; the source formats it with
`strftime("%b %Y")`, i.e. only month and year are shown. -/
structure MortgageSummary where
  loanAmount : ℚ
  monthlyPaymentPI : ℚ
  totalMonthlyPayment : ℚ
  totalInterestPaid : ℚ
  payoffDate : Date
  annualPayment : ℚ
  totalPayments : ℚ
  propertyTaxMonthly : ℚ
  pmiMonthly : ℚ
  homeInsuranceMonthly : ℚ
  hoaFeeMonthly : ℚ
  deriving DecidableEq

/-- Builds the summary record once the payoff-date `replace` at line 140
has succeeded with result `d0`;  lines 141–145 then clamp a Feb-29 start
to day 28 (the inner `try` around `replace(day=28)` keeps `d0` on
failure, which in fact can never fire since every month has a day 28). -/
def mkSummary (inp : LoanInput) (d0 : Date) : MortgageSummary :=
  let l := loanAmount inp
  let pay := fixedPayment l (monthlyRate inp) (termMonths inp)
  let totalMonthly := pay + propertyTaxMonthlyOf inp + pmiMonthlyOf inp +
    homeInsuranceMonthlyOf inp + inp.hoaFee
  { loanAmount := l
    monthlyPaymentPI := pay
    totalMonthlyPayment := totalMonthly
    totalInterestPaid := pay * ((termMonths inp : ℤ) : ℚ) - l
    payoffDate :=
      if inp.startDate.month = 2 ∧ inp.startDate.day = 29 then
        (replaceDay d0 28).getD d0
      else d0
    annualPayment := totalMonthly * 12
    totalPayments := totalMonthly * ((termMonths inp : ℤ) : ℚ)
    propertyTaxMonthly := propertyTaxMonthlyOf inp
    pmiMonthly := pmiMonthlyOf inp
    homeInsuranceMonthly := homeInsuranceMonthlyOf inp
    hoaFeeMonthly := inp.hoaFee }

/-- Embedding of `calculate_mortgage` (lines 81–164).  `none` models the
`except` path (an error is reported to the UI and `None` is returned):
it is reached exactly on a `ZeroDivisionError` in the payment formula or
a `ValueError` from `start_date.replace(year=...)` at line 140 — note
that this `replace` is NOT protected by the inner `try` of lines
142–145, so a Feb-29 start whose target year lacks Feb 29 aborts the
whole computation. -/
def calculate_mortgage (inp : LoanInput) : Option MortgageSummary :=
  if divGuard (monthlyRate inp) (termMonths inp) then none
  else (replaceYear inp.startDate (inp.startDate.year + effYears inp)).map
    (fun d0 => mkSummary inp d0)

/-- Observation helper: the P&I payment of a successful summary (0 when
the summary is absent). -/
def monthlyPIOf (inp : LoanInput) : ℚ :=
  ((calculate_mortgage inp).map (fun s => s.monthlyPaymentPI)).getD 0

/-- Observation helper: the total monthly payment of a successful
summary (0 when the summary is absent). -/
def totalMonthlyOf (inp : LoanInput) : ℚ :=
  ((calculate_mortgage inp).map (fun s => s.totalMonthlyPayment)).getD 0

/-- Observation helper: the payoff date of a successful summary. -/
def payoffDateOf (inp : LoanInput) : Option Date :=
  (calculate_mortgage inp).map (fun s => s.payoffDate)

/-! ### Yearly amortization schedule (`generate_yearly_schedule`) -/

/-- One row of the yearly schedule (lines 234–240): year index, the
`strftime("%Y")` label (just the year number), yearly principal, yearly
interest, ending balance. -/
structure YearRow where
  yearIdx : ℕ
  labelYear : ℤ
  principal : ℚ
  interest : ℚ
  endingBalance : ℚ
  deriving DecidableEq

/-- Embedding of the inner month loop of `generate_yearly_schedule`
(lines 220–232): up to `fuel` (= 12) iterations, breaking as soon as
the balance is ≤ 0; returns accumulated (interest, principal) and the
final balance.  The clamp of lines 227–229 adjusts the final principal
and pins the balance to 0 when it would overshoot below 0. -/
def runYear (r pay : ℚ) : ℕ → ℚ → ℚ × ℚ × ℚ
  | 0, b => (0, 0, b)
  | fuel + 1, b =>
    if b ≤ 0 then (0, 0, b)
    else
      let i := b * r
      let p := pay - i
      let b1 := b - p
      let pb := if b1 < 0 then (p + b1, (0 : ℚ)) else (p, b1)
      let rest := runYear r pay fuel pb.2
      (i + rest.1, pb.1 + rest.2.1, rest.2.2)

/-- Embedding of the zero-fill of lines 243–251: once the loan is paid
off, the remaining years `y, y+1, …` (`cnt` of them) are emitted with
principal = interest = balance = 0; each label is computed with
`start_date.replace(year=start.year + y - 1)`, whose `ValueError` (`none`)
aborts the whole schedule. -/
def padRows (start : Date) : ℕ → ℕ → Option (List YearRow)
  | _, 0 => some []
  | y, cnt + 1 =>
    (replaceYear start (start.year + y - 1)).bind fun d =>
      (padRows start (y + 1) cnt).map (fun rows => ⟨y, d.year, 0, 0, 0⟩ :: rows)

/-- Embedding of the outer year loop of `generate_yearly_schedule`
(lines 216–252).  `rem` is the number of years still to process and `y`
the 1-based index of the current year (the Python loop is
`for year in range(1, loan_term_years + 1)`).  A `ValueError` from the
label `replace` (line 236 or 247) is `none` and discards everything, as
the broad `except` of line 256 does. -/
def yearlyLoop (r pay : ℚ) (start : Date) : ℕ → ℕ → ℚ → Option (List YearRow)
  | 0, _, _ => some []
  | rem + 1, y, b =>
    let res := runYear r pay 12 b
    (replaceYear start (start.year + y - 1)).bind fun d =>
      let row : YearRow := ⟨y, d.year, res.2.1, res.1, res.2.2⟩
      if res.2.2 ≤ 0 then
        (padRows start (y + 1) rem).map (fun rows => row :: rows)
      else
        (yearlyLoop r pay start rem (y + 1) res.2.2).map (fun rows => row :: rows)

/-- Embedding of `generate_yearly_schedule` up to its outermost
error-normalization: `some []` models the early `return pd.DataFrame()`
when `calculate_mortgage` returned `None` (lines 189–190), plain `none`
models an exception caught at line 256.  The rate/term/payment
recomputation of lines 192–211 repeats the summary's formulas verbatim,
so it reuses the same embedded definitions. -/
def generate_yearly_aux (inp : LoanInput) : Option (List YearRow) :=
  if (calculate_mortgage inp).isNone then some []
  else if divGuard (monthlyRate inp) (termMonths inp) then none
  else
    yearlyLoop (monthlyRate inp)
      (fixedPayment (loanAmount inp) (monthlyRate inp) (termMonths inp))
      inp.startDate (effYears inp).toNat 1 (loanAmount inp)

/-- Embedding of `generate_yearly_schedule` (lines 166–258): both the
"summary failed" path and the exception path yield an empty schedule. -/
def generate_yearly (inp : LoanInput) : List YearRow :=
  (generate_yearly_aux inp).getD []

/-! ### Monthly amortization schedule (`generate_monthly_schedule`) -/

/-- One row of the monthly schedule (lines 337–343): month index, the
`strftime("%b %Y")` label (month and year of `current_date`), monthly
principal, monthly interest, ending balance. -/
structure MonthRow where
  monthIdx : ℕ
  labelMonth : ℕ
  labelYear : ℤ
  principal : ℚ
  interest : ℚ
  endingBalance : ℚ
  deriving DecidableEq

/-- Embedding of `months_to_show` (lines 314–316): the first
`min(12, total)` months, and — when `total > 12` — the months
`max(total-11, 13) .. total`. -/
def monthsToShow (total : ℕ) : List ℕ :=
  List.range' 1 (min 12 total) ++
    (if 12 < total then
      List.range' (max (total - 11) 13) (total + 1 - max (total - 11) 13)
    else [])

/-- Embedding of the month loop of `generate_monthly_schedule` (lines
318–353).  `rem` is the number of months still to process, `m` the
1-based month index, `cur` the running `current_date`, `b` the running
balance.  A month outside `months_to_show` only advances the balance
(lines 320–326) — note it does NOT advance `current_date`.  An emitted
month appends a row, advances the date (a `ValueError` there is `none`
and discards the whole schedule) and then breaks if the balance
reached 0. -/
def monthlyLoop (r pay : ℚ) (total : ℕ) : ℕ → ℕ → Date → ℚ → Option (List MonthRow)
  | 0, _, _, _ => some []
  | rem + 1, m, cur, b =>
    if m ∈ monthsToShow total then
      let i := b * r
      let p := pay - i
      let eb := b - p
      let pe := if eb < 0 then (p + eb, (0 : ℚ)) else (p, eb)
      let row : MonthRow := ⟨m, cur.month, cur.year, pe.1, i, pe.2⟩
      (nextMonth cur).bind fun cur1 =>
        if pe.2 ≤ 0 then some [row]
        else (monthlyLoop r pay total rem (m + 1) cur1 pe.2).map (fun rows => row :: rows)
    else
      let i := b * r
      let p := pay - i
      let b1 := b - p
      let b2 := if b1 < 0 then (0 : ℚ) else b1
      monthlyLoop r pay total rem (m + 1) cur b2

/-- Embedding of `generate_monthly_schedule` up to its outermost
error-normalization, exactly analogous to `generate_yearly_aux`
(summary check at lines 283–284, recomputation at 286–305, loop at
318–353, broad `except` at 357). -/
def generate_monthly_aux (inp : LoanInput) : Option (List MonthRow) :=
  if (calculate_mortgage inp).isNone then some []
  else if divGuard (monthlyRate inp) (termMonths inp) then none
  else
    monthlyLoop (monthlyRate inp)
      (fixedPayment (loanAmount inp) (monthlyRate inp) (termMonths inp))
      (termMonths inp).toNat (termMonths inp).toNat 1 inp.startDate (loanAmount inp)

/-- Embedding of `generate_monthly_schedule` (lines 260–359). -/
def generate_monthly (inp : LoanInput) : List MonthRow :=
  (generate_monthly_aux inp).getD []

/-- Single-month balance update shared by both branches of the monthly
loop: pay interest `b*r`, pay principal `pay - b*r`, clamp at zero.
Both the emitted branch (lines 328–335) and the skipped branch (lines
321–325) update the running balance by exactly this function. -/
def monthStep (r pay b : ℚ) : ℚ :=
  let b1 := b - (pay - b * r)
  if b1 < 0 then 0 else b1

/-- The clamp-free linear balance recurrence underlying both schedule
loops: `pureBal r pay l m` is the balance after `m` months when no
clamp ever fires. -/
def pureBal (r pay l : ℚ) : ℕ → ℚ
  | 0 => l
  | m + 1 => pureBal r pay l m - (pay - pureBal r pay l m * r)

/-- Observation helper: the loan amount reported by a successful summary. -/
def loanAmountOf (inp : LoanInput) : Option ℚ :=
  (calculate_mortgage inp).map (fun s => s.loanAmount)

/-! ### Concrete inputs used by counterexamples, bug exhibits and witnesses -/

/-- Loan input of the worked example in the spec (claim C6): 400000 home,
80000 down, 7 percent, 30 years, 3000/yr tax, 1500/yr insurance. -/
def exampleInput : LoanInput :=
  ⟨400000, 80000, 7, 30, ⟨2024, 1, 1⟩, 3000, 0, 1500, 0, none, none⟩

/-- Leap-day start, 1-year term: the payoff `replace(year=2025)` raises. -/
def leapPayoffInput : LoanInput :=
  ⟨1200, 0, 0, 1, ⟨2024, 2, 29⟩, 0, 0, 0, 0, none, none⟩

/-- Leap-day start, 4-year term: the payoff `replace(year=2028)` succeeds
(2028 is a leap year) — and is then clamped to day 28 anyway. -/
def leapLeapInput : LoanInput :=
  ⟨48000, 0, 0, 4, ⟨2024, 2, 29⟩, 0, 0, 0, 0, none, none⟩

/-- Negative term: `-1` years, zero rate. -/
def negTermInput : LoanInput :=
  ⟨48000, 0, 0, -1, ⟨2024, 1, 1⟩, 0, 0, 0, 0, none, none⟩

/-- Zero effective term (divides by zero in the payment formula). -/
def zeroTermInput : LoanInput :=
  ⟨48000, 0, 0, 0, ⟨2024, 1, 1⟩, 0, 0, 0, 0, none, none⟩

/-- Negative loan amount: down payment exceeds the home value. -/
def negLoanInput : LoanInput :=
  ⟨0, 100, 0, 2, ⟨2024, 1, 1⟩, 0, 0, 0, 0, none, none⟩

/-- Zero loan amount: home value equals the down payment, 2-year term. -/
def zeroLoanInput : LoanInput :=
  ⟨1000, 1000, 0, 2, ⟨2024, 1, 1⟩, 0, 0, 0, 0, none, none⟩

/-- Interest-free 3-year loan: 36 months, window 1..12 and 25..36. -/
def threeYearInput : LoanInput :=
  ⟨36000, 0, 0, 3, ⟨2025, 1, 1⟩, 0, 0, 0, 0, none, none⟩

/-- Interest-free 1-year loan, used as a well-behaved witness input. -/
def simpleInput : LoanInput :=
  ⟨1200, 0, 0, 1, ⟨2024, 1, 1⟩, 0, 0, 0, 0, none, none⟩

/-! ### Helper lemmas about the summary computation -/

/-- If the summary computation succeeded, the division guard on the
(identically recomputed) rate and term is false. -/
lemma divGuard_false_of_isSome {inp : LoanInput}
    (h : (calculate_mortgage inp).isSome) :
    divGuard (monthlyRate inp) (termMonths inp) = false := by
  by_contra hg
  rw [Bool.not_eq_false] at hg
  unfold calculate_mortgage at h
  rw [hg] at h
  simp at h

/-- If the summary computation succeeded, the payoff-date `replace` at
line 140 succeeded. -/
lemma payoffReplace_isSome_of_isSome {inp : LoanInput}
    (h : (calculate_mortgage inp).isSome) :
    (replaceYear inp.startDate (inp.startDate.year + effYears inp)).isSome := by
  unfold calculate_mortgage at h
  rcases hg : divGuard (monthlyRate inp) (termMonths inp) with _ | _
  · rw [hg] at h
    simp only [if_false, Bool.false_eq_true] at h
    exact Option.isSome_map .. ▸ h
  · rw [hg] at h
    simp at h

/-- A successful `mkDate` returns a valid date with the given fields. -/
lemma mkDate_some {y : ℤ} {m d : ℕ} {dt : Date} (h : mkDate y m d = some dt) :
    dt = ⟨y, m, d⟩ ∧ validYMD y m d := by
  unfold mkDate at h
  split at h
  · exact ⟨(Option.some_inj.mp h).symm, by assumption⟩
  · exact absurd h (by simp)

/-- `mkDate` succeeds on every valid component triple. -/
lemma mkDate_isSome_of_valid {y : ℤ} {m d : ℕ} (h : validYMD y m d) :
    mkDate y m d = some ⟨y, m, d⟩ := by
  unfold mkDate
  rw [if_pos h]

/-! ### Balance invariants (used for claim C1) -/

/-- Arithmetic of a clamp-free month step: if the pre-clamp new balance
`b - (pay - b*r)` is non-negative, it is bounded by the old balance and
its interest charge stays below the payment. -/
lemma noclampFacts (r pay b : ℚ) (hbp : b * r ≤ pay) (hpay : 0 ≤ pay)
    (h0 : 0 ≤ b - (pay - b * r)) :
    b - (pay - b * r) ≤ b ∧ (b - (pay - b * r)) * r ≤ pay := by
  constructor
  · linarith
  · rcases le_or_lt 0 r with hr | hr
    · calc (b - (pay - b * r)) * r ≤ b * r :=
          mul_le_mul_of_nonneg_right (by linarith) hr
        _ ≤ pay := hbp
    · nlinarith

/-- The inner 12-month loop of the yearly schedule preserves the balance
invariant: starting from a non-negative balance whose interest charge is
at most the payment, the final balance stays in `[0, b]` and keeps the
invariant. -/
lemma runYear_inv (r pay : ℚ) (hpay : 0 ≤ pay) :
    ∀ n b, 0 ≤ b → b * r ≤ pay →
      0 ≤ (runYear r pay n b).2.2 ∧ (runYear r pay n b).2.2 ≤ b ∧
        (runYear r pay n b).2.2 * r ≤ pay := by
  intro n
  induction n with
  | zero => intro b hb hbp; exact ⟨hb, le_refl b, hbp⟩
  | succ n ih =>
    intro b hb hbp
    simp only [runYear]
    split
    · exact ⟨hb, le_refl b, hbp⟩
    · split
      case isTrue h =>
        have h0 := ih 0 (le_refl 0) (by simpa using hpay)
        exact ⟨h0.1, h0.2.1.trans hb, h0.2.2⟩
      case isFalse h =>
        have h0 : 0 ≤ b - (pay - b * r) := le_of_not_lt h
        have hf := noclampFacts r pay b hbp hpay h0
        have hrec := ih (b - (pay - b * r)) h0 hf.2
        exact ⟨hrec.1, hrec.2.1.trans hf.1, hrec.2.2⟩

/-- Every zero-fill row has zero principal, interest and balance. -/
lemma padRows_zero {start : Date} :
    ∀ {cnt y : ℕ} {rows : List YearRow}, padRows start y cnt = some rows →
      ∀ x ∈ rows, x.principal = 0 ∧ x.interest = 0 ∧ x.endingBalance = 0 := by
  intro cnt
  induction cnt with
  | zero =>
    intro y rows h x hx
    simp only [padRows] at h
    rw [← Option.some_inj.mp h] at hx
    simp at hx
  | succ n ih =>
    intro y rows h x hx
    simp only [padRows] at h
    rcases hrep : replaceYear start (start.year + y - 1) with _ | d
    · rw [hrep] at h; simp at h
    · rw [hrep] at h
      rcases Option.map_eq_some'.mp h with ⟨rows1, h1, rfl⟩
      rcases List.mem_cons.mp hx with rfl | hx1
      · exact ⟨rfl, rfl, rfl⟩
      · exact ih h1 x hx1

/-- The yearly loop preserves the balance invariant: all emitted rows
have ending balances in `[0, b]` and the balances are non-increasing
along the list. -/
lemma yearlyLoop_inv (r pay : ℚ) (start : Date) (hpay : 0 ≤ pay) :
    ∀ rem y b rows, 0 ≤ b → b * r ≤ pay →
      yearlyLoop r pay start rem y b = some rows →
      (∀ x ∈ rows, 0 ≤ x.endingBalance ∧ x.endingBalance ≤ b) ∧
        List.Chain' (fun a c => c.endingBalance ≤ a.endingBalance) rows := by
  intro rem
  induction rem with
  | zero =>
    intro y b rows hb hbp h
    simp only [yearlyLoop] at h
    rw [← Option.some_inj.mp h]
    exact ⟨by simp, List.chain'_nil⟩
  | succ n ih =>
    intro y b rows hb hbp h
    simp only [yearlyLoop] at h
    rcases hrep : replaceYear start (start.year + y - 1) with _ | d
    · rw [hrep] at h; simp at h
    · rw [hrep, Option.some_bind] at h
      have hinv := runYear_inv r pay hpay 12 b hb hbp
      split at h
      next hz =>
        have hbz : (runYear r pay 12 b).2.2 = 0 := le_antisymm hz hinv.1
        rcases Option.map_eq_some'.mp h with ⟨pads, hpads, rfl⟩
        have hzero := padRows_zero hpads
        constructor
        · intro x hx
          rcases List.mem_cons.mp hx with rfl | hx1
          · exact ⟨hinv.1, hinv.2.1⟩
          · rw [(hzero x hx1).2.2]
            exact ⟨le_refl 0, hb⟩
        · apply List.Pairwise.chain'
          apply List.pairwise_of_forall_mem_list
          intro a ha c hc
          have hc0 : c.endingBalance ≤ 0 := by
            rcases List.mem_cons.mp hc with rfl | hc1
            · rw [hbz]
            · rw [(hzero c hc1).2.2]
          have ha0 : 0 ≤ a.endingBalance := by
            rcases List.mem_cons.mp ha with rfl | ha1
            · rw [hbz]
            · rw [(hzero a ha1).2.2]
          linarith
      next hz =>
        rcases Option.map_eq_some'.mp h with ⟨rest, hrest, rfl⟩
        have hrec := ih (y + 1) (runYear r pay 12 b).2.2 rest hinv.1 hinv.2.2 hrest
        constructor
        · intro x hx
          rcases List.mem_cons.mp hx with rfl | hx1
          · exact ⟨hinv.1, hinv.2.1⟩
          · exact ⟨(hrec.1 x hx1).1, ((hrec.1 x hx1).2).trans hinv.2.1⟩
        · rw [List.chain'_cons']
          refine ⟨fun z hz1 => ?_, hrec.2⟩
          exact (hrec.1 z (List.mem_of_mem_head? hz1)).2

/-- The monthly loop preserves the same balance invariant. -/
lemma monthlyLoop_inv (r pay : ℚ) (total : ℕ) (hpay : 0 ≤ pay) :
    ∀ rem m cur b rows, 0 ≤ b → b * r ≤ pay →
      monthlyLoop r pay total rem m cur b = some rows →
      (∀ x ∈ rows, 0 ≤ x.endingBalance ∧ x.endingBalance ≤ b) ∧
        List.Chain' (fun a c => c.endingBalance ≤ a.endingBalance) rows := by
  intro rem
  induction rem with
  | zero =>
    intro m cur b rows hb hbp h
    simp only [monthlyLoop] at h
    rw [← Option.some_inj.mp h]
    exact ⟨by simp, List.chain'_nil⟩
  | succ n ih =>
    intro m cur b rows hb hbp h
    simp only [monthlyLoop] at h
    split at h
    · -- month in the sampling window: a row is emitted
      rcases hnext : nextMonth cur with _ | cur1
      · rw [hnext] at h; simp at h
      · rw [hnext, Option.some_bind] at h
        split at h
        next hclamp =>
          -- overshoot: the pre-clamp balance went negative, clamp to 0
          split at h
          next hz =>
            rw [← Option.some_inj.mp h]
            constructor
            · intro x hx
              rcases List.mem_cons.mp hx with rfl | hx1
              · exact ⟨le_refl 0, hb⟩
              · simp at hx1
            · simp
          next hz => exact absurd (le_refl (0:ℚ)) hz
        next hclamp =>
          have h0 : 0 ≤ b - (pay - b * r) := le_of_not_lt hclamp
          have hf := noclampFacts r pay b hbp hpay h0
          split at h
          next hz =>
            rw [← Option.some_inj.mp h]
            constructor
            · intro x hx
              rcases List.mem_cons.mp hx with rfl | hx1
              · exact ⟨h0, hf.1⟩
              · simp at hx1
            · simp
          next hz =>
            rcases Option.map_eq_some'.mp h with ⟨rest, hrest, rfl⟩
            have hrec := ih (m + 1) cur1 (b - (pay - b * r)) rest h0 hf.2 hrest
            constructor
            · intro x hx
              rcases List.mem_cons.mp hx with rfl | hx1
              · exact ⟨h0, hf.1⟩
              · exact ⟨(hrec.1 x hx1).1, ((hrec.1 x hx1).2).trans hf.1⟩
            · rw [List.chain'_cons']
              exact ⟨fun z hz1 => (hrec.1 z (List.mem_of_mem_head? hz1)).2, hrec.2⟩
    · -- month outside the window: only the balance advances
      split at h
      next hclamp =>
        have hrec := ih (m + 1) cur 0 rows (le_refl 0) (by simpa using hpay) h
        refine ⟨fun x hx => ⟨(hrec.1 x hx).1, ((hrec.1 x hx).2).trans hb⟩, hrec.2⟩
      next hclamp =>
        have h0 : 0 ≤ b - (pay - b * r) := le_of_not_lt hclamp
        have hf := noclampFacts r pay b hbp hpay h0
        have hrec := ih (m + 1) cur (b - (pay - b * r)) rows h0 hf.2 h
        exact ⟨fun x hx => ⟨(hrec.1 x hx).1, ((hrec.1 x hx).2).trans hf.1⟩, hrec.2⟩

/-- The fixed payment of a non-negative loan over a positive term is
non-negative and covers at least the first interest charge
`loanAmount * monthlyRate`. -/
lemma fixedPayment_facts (l r : ℚ) (T : ℤ) (hl : 0 ≤ l) (hT : 0 < T) :
    0 ≤ fixedPayment l r T ∧ l * r ≤ fixedPayment l r T := by
  unfold fixedPayment
  split
  next hr =>
    have hT0 : (0:ℤ) ≤ T := le_of_lt hT
    have hA : 1 < (1 + r) ^ T := by
      rw [← Int.toNat_of_nonneg hT0, zpow_natCast]
      exact one_lt_pow₀ (by linarith) (by omega)
    have hA1 : 0 < (1 + r) ^ T - 1 := by linarith
    constructor
    · apply div_nonneg
      · exact mul_nonneg hl (mul_nonneg (le_of_lt hr) (by linarith))
      · linarith
    · rw [le_div_iff₀ hA1]
      have hlr : 0 ≤ l * r := mul_nonneg hl (le_of_lt hr)
      nlinarith
  next hr =>
    have hr0 : r ≤ 0 := le_of_not_lt hr
    have hT0 : (0:ℚ) < (T:ℚ) := by exact_mod_cast hT
    have h1 : l * r ≤ 0 := by nlinarith
    have h2 : 0 ≤ l / (T:ℚ) := div_nonneg hl (le_of_lt hT0)
    exact ⟨h2, by linarith⟩

/-! ### Claim C1 — balance monotonicity and non-negativity -/

/-- C1 (counterexample).  For a down payment exceeding the home value
(loan amount −100) the yearly schedule's first row carries the negative
starting balance unchanged (the inner month loop breaks immediately),
and the zero-fill row that follows INCREASES the balance back to 0: the
emitted balances are `[-100, 0]`, which is both negative and
increasing, refuting the claim for such inputs. -/
theorem C1_counterexample :
    generate_yearly negLoanInput =
      [⟨1, 2024, 0, 0, -100⟩, ⟨2, 2025, 0, 0, 0⟩] ∧
    ¬ (∀ x ∈ generate_yearly negLoanInput, 0 ≤ x.endingBalance) ∧
    ¬ List.Chain' (fun a c => c.endingBalance ≤ a.endingBalance)
        (generate_yearly negLoanInput) := by
  have hrows : generate_yearly negLoanInput =
      [⟨1, 2024, 0, 0, -100⟩, ⟨2, 2025, 0, 0, 0⟩] := by decide
  refine ⟨hrows, ?_, ?_⟩
  · intro hall
    have h1 := hall ⟨1, 2024, 0, 0, -100⟩ (by rw [hrows]; exact List.mem_cons_self _ _)
    norm_num at h1
  · intro hch
    rw [hrows, List.chain'_cons] at hch
    have h1 : (0:ℚ) ≤ -100 := hch.1
    norm_num at h1

/-- C1 (amended).  Restricted to inputs with `homeValue ≥ downPayment`
(non-negative starting loan amount) the claim holds: in both the yearly
and the monthly schedule every emitted ending balance is non-negative
and the balances are non-increasing from one emitted row to the next. -/
theorem C1_amended (inp : LoanInput) (hL : inp.downPayment ≤ inp.homeValue) :
    ((∀ x ∈ generate_yearly inp, 0 ≤ x.endingBalance) ∧
      List.Chain' (fun a c => c.endingBalance ≤ a.endingBalance)
        (generate_yearly inp)) ∧
    ((∀ x ∈ generate_monthly inp, 0 ≤ x.endingBalance) ∧
      List.Chain' (fun a c => c.endingBalance ≤ a.endingBalance)
        (generate_monthly inp)) := by
  have hL0 : 0 ≤ loanAmount inp := by unfold loanAmount; linarith
  constructor
  · unfold generate_yearly
    rcases haux : generate_yearly_aux inp with _ | rows
    · exact ⟨by simp, by simp⟩
    · simp only [Option.getD_some]
      unfold generate_yearly_aux at haux
      split at haux
      · rw [← Option.some_inj.mp haux]
        exact ⟨by simp, List.chain'_nil⟩
      · split at haux
        · exact absurd haux (by simp)
        · rcases le_or_lt 1 (effYears inp) with hy | hy
          · have hT : (0:ℤ) < termMonths inp := by unfold termMonths; omega
            have hfacts := fixedPayment_facts (loanAmount inp) (monthlyRate inp)
              (termMonths inp) hL0 hT
            have hinv := yearlyLoop_inv (monthlyRate inp)
              (fixedPayment (loanAmount inp) (monthlyRate inp) (termMonths inp))
              inp.startDate hfacts.1 (effYears inp).toNat 1 (loanAmount inp) rows
              hL0 hfacts.2 haux
            exact ⟨fun x hx => (hinv.1 x hx).1, hinv.2⟩
          · have h0 : (effYears inp).toNat = 0 := by omega
            rw [h0] at haux
            simp only [yearlyLoop] at haux
            rw [← Option.some_inj.mp haux]
            exact ⟨by simp, List.chain'_nil⟩
  · unfold generate_monthly
    rcases haux : generate_monthly_aux inp with _ | rows
    · exact ⟨by simp, by simp⟩
    · simp only [Option.getD_some]
      unfold generate_monthly_aux at haux
      split at haux
      · rw [← Option.some_inj.mp haux]
        exact ⟨by simp, List.chain'_nil⟩
      · split at haux
        · exact absurd haux (by simp)
        · rcases le_or_lt 1 (effYears inp) with hy | hy
          · have hT : (0:ℤ) < termMonths inp := by unfold termMonths; omega
            have hfacts := fixedPayment_facts (loanAmount inp) (monthlyRate inp)
              (termMonths inp) hL0 hT
            have hinv := monthlyLoop_inv (monthlyRate inp)
              (fixedPayment (loanAmount inp) (monthlyRate inp) (termMonths inp))
              (termMonths inp).toNat hfacts.1 (termMonths inp).toNat 1
              inp.startDate (loanAmount inp) rows hL0 hfacts.2 haux
            exact ⟨fun x hx => (hinv.1 x hx).1, hinv.2⟩
          · have h0 : (termMonths inp).toNat = 0 := by
              unfold termMonths; omega
            rw [h0] at haux
            simp only [monthlyLoop] at haux
            rw [← Option.some_inj.mp haux]
            exact ⟨by simp, List.chain'_nil⟩

/-- C1 witness: the amended theorem applied to a concrete interest-free
loan with positive loan amount. -/
theorem C1_amended_witness :
    simpleInput.downPayment ≤ simpleInput.homeValue ∧
    (((∀ x ∈ generate_yearly simpleInput, 0 ≤ x.endingBalance) ∧
      List.Chain' (fun a c => c.endingBalance ≤ a.endingBalance)
        (generate_yearly simpleInput)) ∧
    ((∀ x ∈ generate_monthly simpleInput, 0 ≤ x.endingBalance) ∧
      List.Chain' (fun a c => c.endingBalance ≤ a.endingBalance)
        (generate_monthly simpleInput))) :=
  ⟨by decide, C1_amended simpleInput (by decide)⟩

/-! ### Row-count and zero-fill structure of the yearly schedule (claim C2) -/

/-- Month lengths never drop below 28 in any year. -/
lemma daysInMonth_ge_28 (y : ℤ) (m : ℕ) : 28 ≤ daysInMonth y m := by
  unfold daysInMonth
  split
  · split <;> norm_num
  · split <;> norm_num

/-- For every month other than February the month length does not depend
on the year. -/
lemma daysInMonth_ne_two (y z : ℤ) (m : ℕ) (h : m ≠ 2) :
    daysInMonth y m = daysInMonth z m := by
  unfold daysInMonth
  rw [if_neg h, if_neg h]

/-- Replacing the year of a valid date succeeds whenever the new year is
in range and the date is not a Feb 29 (which only exists in leap
years). -/
lemma replaceYear_isSome (start : Date) (Y : ℤ) (hv : start.valid)
    (h29 : ¬(start.month = 2 ∧ start.day = 29)) (h1 : 1 ≤ Y) (h2 : Y ≤ 9999) :
    (replaceYear start Y).isSome := by
  unfold replaceYear
  unfold Date.valid validYMD at hv
  have hday : start.day ≤ daysInMonth Y start.month := by
    by_cases hm : start.month = 2
    · have h28 : start.day ≤ 29 := by
        have := hv.2.2.2.2.2
        have h29m : daysInMonth start.year 2 ≤ 29 := by
          unfold daysInMonth
          rw [if_pos rfl]
          split <;> norm_num
        rw [hm] at this
        omega
      have hne : start.day ≠ 29 := fun hd => h29 ⟨hm, hd⟩
      have := daysInMonth_ge_28 Y start.month
      omega
    · rw [← daysInMonth_ne_two start.year Y start.month hm]
      exact hv.2.2.2.2.2
  rw [mkDate_isSome_of_valid ⟨h1, h2, hv.2.2.1, hv.2.2.2.1, hv.2.2.2.2.1, hday⟩]
  rfl

/-- A successful summary pins the payoff year `start.year + effYears`
inside the calendar range 1..9999. -/
lemma payoffYear_bounds {inp : LoanInput} (h : (calculate_mortgage inp).isSome) :
    1 ≤ inp.startDate.year + effYears inp ∧
      inp.startDate.year + effYears inp ≤ 9999 := by
  have hrep := payoffReplace_isSome_of_isSome h
  unfold replaceYear at hrep
  rcases Option.isSome_iff_exists.mp hrep with ⟨dd, hdd⟩
  have hval := (mkDate_some hdd).2
  exact ⟨hval.1, hval.2.1⟩

/-- The zero-fill generator succeeds and emits exactly `cnt` rows when
every label `replace` succeeds. -/
lemma padRows_some (start : Date) :
    ∀ cnt y, (∀ j : ℕ, y ≤ j → j < y + cnt →
        (replaceYear start (start.year + (j:ℤ) - 1)).isSome) →
      ∃ rows, padRows start y cnt = some rows ∧ rows.length = cnt := by
  intro cnt
  induction cnt with
  | zero =>
    intro y _
    exact ⟨[], by simp [padRows], rfl⟩
  | succ n ih =>
    intro y hlab
    rcases Option.isSome_iff_exists.mp (hlab y (le_refl y) (by omega)) with ⟨d, hd⟩
    rcases ih (y + 1) (fun j h1 h2 => hlab j (by omega) (by omega)) with
      ⟨rows1, h1, hlen⟩
    refine ⟨⟨y, d.year, 0, 0, 0⟩ :: rows1, ?_, by simp [hlen]⟩
    simp only [padRows]
    rw [hd, Option.some_bind, h1]
    rfl

/-- The yearly loop succeeds and emits exactly `rem` rows when every
label `replace` succeeds: early payoff only switches to the zero-fill
generator, never truncates. -/
lemma yearlyLoop_total (r pay : ℚ) (start : Date) :
    ∀ rem y b, (∀ j : ℕ, y ≤ j → j < y + rem →
        (replaceYear start (start.year + (j:ℤ) - 1)).isSome) →
      ∃ rows, yearlyLoop r pay start rem y b = some rows ∧ rows.length = rem := by
  intro rem
  induction rem with
  | zero =>
    intro y b _
    exact ⟨[], by simp [yearlyLoop], rfl⟩
  | succ n ih =>
    intro y b hlab
    rcases Option.isSome_iff_exists.mp (hlab y (le_refl y) (by omega)) with ⟨d, hd⟩
    by_cases hz : (runYear r pay 12 b).2.2 ≤ 0
    · rcases padRows_some start n (y + 1)
        (fun j h1 h2 => hlab j (by omega) (by omega)) with ⟨pads, hpads, hplen⟩
      refine ⟨⟨y, d.year, (runYear r pay 12 b).2.1, (runYear r pay 12 b).1,
        (runYear r pay 12 b).2.2⟩ :: pads, ?_, by simp [hplen]⟩
      simp only [yearlyLoop]
      rw [hd, Option.some_bind, if_pos hz, hpads]
      rfl
    · rcases ih (y + 1) (runYear r pay 12 b).2.2
        (fun j h1 h2 => hlab j (by omega) (by omega)) with ⟨rest, hrest, hrlen⟩
      refine ⟨⟨y, d.year, (runYear r pay 12 b).2.1, (runYear r pay 12 b).1,
        (runYear r pay 12 b).2.2⟩ :: rest, ?_, by simp [hrlen]⟩
      simp only [yearlyLoop]
      rw [hd, Option.some_bind, if_neg hz, hrest]
      rfl

/-- In any successful yearly loop output, a row whose ending balance is
zero is followed only by all-zero rows (the loan does not reopen). -/
lemma yearlyLoop_zeroAfter (r pay : ℚ) (start : Date) :
    ∀ rem y b rows, yearlyLoop r pay start rem y b = some rows →
      ∀ i, ∀ hi : i < rows.length, (rows.get ⟨i, hi⟩).endingBalance = 0 →
        ∀ x ∈ rows.drop (i + 1),
          x.principal = 0 ∧ x.interest = 0 ∧ x.endingBalance = 0 := by
  intro rem
  induction rem with
  | zero =>
    intro y b rows h i hi
    simp only [yearlyLoop] at h
    rw [← Option.some_inj.mp h] at hi
    simp at hi
  | succ n ih =>
    intro y b rows h i hi hbal x hx
    simp only [yearlyLoop] at h
    rcases hrep : replaceYear start (start.year + y - 1) with _ | d
    · rw [hrep] at h; simp at h
    · rw [hrep, Option.some_bind] at h
      split at h
      next hz =>
        rcases Option.map_eq_some'.mp h with ⟨pads, hpads, rfl⟩
        cases i with
        | zero =>
          rw [List.drop_succ_cons, List.drop_zero] at hx
          exact padRows_zero hpads x hx
        | succ j =>
          rw [List.drop_succ_cons] at hx
          exact padRows_zero hpads x (List.mem_of_mem_drop hx)
      next hz =>
        rcases Option.map_eq_some'.mp h with ⟨rest, hrest, rfl⟩
        cases i with
        | zero =>
          exact absurd hbal (fun hb => hz (le_of_eq hb))
        | succ j =>
          rw [List.drop_succ_cons] at hx
          have hj : j < rest.length := by
            have := hi; simp at this; omega
          refine ih (y + 1) (runYear r pay 12 b).2.2 rest hrest j hj ?_ x hx
          rw [← hbal]
          rfl

/-! ### Claim C2 — yearly schedule length and zero padding -/

/-- C2 (counterexample).  For a Feb 29 2024 start with a 4-year term the
summary resolution succeeds (the payoff year 2028 is a leap year), yet
`generate_yearly` returns 0 rows instead of 4: the year-label
`replace(year=2025)` for the second row raises `ValueError`, the broad
`except` catches it and the whole schedule is discarded. -/
theorem C2_counterexample :
    (calculate_mortgage leapLeapInput).isSome = true ∧
    effYears leapLeapInput = 4 ∧
    generate_yearly leapLeapInput = [] := by
  exact ⟨by decide, by decide, by decide⟩

/-- C2 (amended).  For a valid start date that is not Feb 29, a positive
effective term and a successful summary, the yearly schedule has exactly
`effectiveTerm` rows, and any row with balance 0 is followed exclusively
by rows with principal = interest = balance = 0 (the partial-payoff year
keeps its accrued totals; the schedule is never truncated). -/
theorem C2_amended (inp : LoanInput)
    (hv : inp.startDate.valid)
    (h29 : ¬(inp.startDate.month = 2 ∧ inp.startDate.day = 29))
    (hy : 1 ≤ effYears inp)
    (hs : (calculate_mortgage inp).isSome) :
    ((generate_yearly inp).length : ℤ) = effYears inp ∧
    (∀ i, ∀ hi : i < (generate_yearly inp).length,
      ((generate_yearly inp).get ⟨i, hi⟩).endingBalance = 0 →
      ∀ x ∈ (generate_yearly inp).drop (i + 1),
        x.principal = 0 ∧ x.interest = 0 ∧ x.endingBalance = 0) := by
  have hbound := payoffYear_bounds hs
  have hyv : 1 ≤ inp.startDate.year := hv.1
  have hlab : ∀ j : ℕ, 1 ≤ j → j < 1 + (effYears inp).toNat →
      (replaceYear inp.startDate (inp.startDate.year + (j:ℤ) - 1)).isSome := by
    intro j h1 h2
    apply replaceYear_isSome inp.startDate _ hv h29
    · omega
    · have hj : (j : ℤ) ≤ effYears inp := by omega
      omega
  rcases yearlyLoop_total (monthlyRate inp)
      (fixedPayment (loanAmount inp) (monthlyRate inp) (termMonths inp))
      inp.startDate (effYears inp).toNat 1 (loanAmount inp) hlab with
    ⟨rows, hrows, hlen⟩
  have hnotnone : ¬(calculate_mortgage inp).isNone = true := by
    rcases Option.isSome_iff_exists.mp hs with ⟨s, hcal⟩
    rw [hcal]
    simp
  have hguard : ¬ divGuard (monthlyRate inp) (termMonths inp) = true := by
    rw [divGuard_false_of_isSome hs]
    simp
  have haux : generate_yearly_aux inp = some rows := by
    unfold generate_yearly_aux
    rw [if_neg hnotnone, if_neg hguard]
    exact hrows
  have hgen : generate_yearly inp = rows := by
    unfold generate_yearly
    rw [haux]
    rfl
  constructor
  · rw [hgen, hlen]
    omega
  · rw [hgen]
    exact yearlyLoop_zeroAfter _ _ _ _ _ _ _ hrows

/-- C2 witness: the amended theorem applied to a concrete interest-free
1-year loan. -/
theorem C2_amended_witness :
    simpleInput.startDate.valid ∧
    (((generate_yearly simpleInput).length : ℤ) = effYears simpleInput ∧
    (∀ i, ∀ hi : i < (generate_yearly simpleInput).length,
      ((generate_yearly simpleInput).get ⟨i, hi⟩).endingBalance = 0 →
      ∀ x ∈ (generate_yearly simpleInput).drop (i + 1),
        x.principal = 0 ∧ x.interest = 0 ∧ x.endingBalance = 0)) :=
  ⟨by decide,
    C2_amended simpleInput (by decide) (by decide) (by decide) (by decide)⟩

/-! ### Claim C5 — leap-day payoff date -/

/-- C5 (code bug exhibit).  The claim says `loanPayoffDate` equals the
start date advanced by the effective term with Feb-29 clamped to Feb-28
exactly when the target year lacks that day, and in particular that a
Feb 29 2024 start with a 1-year term yields Feb 28 2025.  The code does
neither: (1) for the 1-year term the unguarded
`start_date.replace(year=2025)` at line 140 raises `ValueError` before
the clamp code can run, the broad `except` catches it, and
`calculate_mortgage` returns `None` (first conjunct); (2) when the
target year DOES contain Feb 29 (start Feb 29 2024, term 4 → 2028) the
code still clamps to Feb 28 (second conjunct), the opposite of the
claimed "exactly when the target year lacks that day". -/
theorem C5_code_bug_eval :
    calculate_mortgage leapPayoffInput = none ∧
    payoffDateOf leapLeapInput = some ⟨2028, 2, 28⟩ := by
  exact ⟨by decide, by decide⟩

/-! ### Claim C6 — the worked example -/

/-- C6 (counterexample).  For the spec's example input the code's total
monthly payment is 2128.97… + 250 + 125 ≈ 2503.97, which is more than
0.4 away from the claimed 2503.47 — far beyond any rounding tolerance
(the claimed P&I value 2128.97 itself is correct). -/
theorem C6_counterexample :
    (2503.47 : ℚ) + 2/5 < totalMonthlyOf exampleInput := by
  decide

/-- C6 (amended).  For the example input the summary yields
loanAmount = 320000, monthlyPaymentPI within 0.01 of 2128.97, and
totalMonthlyPayment = monthlyPaymentPI + 375 (tax 250 + insurance 125),
hence within 0.01 of 2503.97 — not 2503.47. -/
theorem C6_amended :
    loanAmountOf exampleInput = some 320000 ∧
    2128.96 < monthlyPIOf exampleInput ∧ monthlyPIOf exampleInput < 2128.98 ∧
    totalMonthlyOf exampleInput = monthlyPIOf exampleInput + 375 ∧
    2503.96 < totalMonthlyOf exampleInput ∧ totalMonthlyOf exampleInput < 2503.98 := by
  refine ⟨by decide, by decide, by decide, by decide, by decide, by decide⟩

/-! ### Claim C7 — rejection of non-positive terms -/

/-- C7 (counterexample).  The claim says every effective term ≤ 0 makes
`computeSummary` fail.  A term of `-1` year with a positive-rate-free
input sails through: `loan_term_months = -12`, the payment formula
divides by `-12` without error, and the summary is returned. -/
theorem C7_counterexample :
    effYears negTermInput ≤ 0 ∧ (calculate_mortgage negTermInput).isSome = true := by
  exact ⟨by decide, by decide⟩

/-- C7 (amended).  Exactly the term 0 (hence `loan_term_months = 0`)
makes the computation fail: both payment branches then divide by zero
(`(1+r)^0 - 1 = 0` for a positive rate, the integer 0 otherwise), the
`except` path is taken and no partial result is returned. -/
theorem C7_amended (inp : LoanInput) (h : effYears inp = 0) :
    calculate_mortgage inp = none := by
  have ht : termMonths inp = 0 := by simp [termMonths, h]
  unfold calculate_mortgage
  rw [ht]
  have hg : divGuard (monthlyRate inp) 0 = true := by
    unfold divGuard
    split
    · simp
    · simp
  rw [hg]
  simp

/-- C7 witness: the amended theorem applied to the concrete zero-term
input. -/
theorem C7_amended_witness :
    effYears zeroTermInput = 0 ∧ calculate_mortgage zeroTermInput = none :=
  ⟨by decide, C7_amended zeroTermInput (by decide)⟩

/-! ### Claim C8 — empty schedules on summary failure -/

/-- C8 (confirmed).  When the underlying summary computation fails, both
schedule generators return the empty schedule (the `if not results:
return pd.DataFrame()` path at lines 189–190 and 283–284); no error
reaches the caller — in the embedding both functions are total and
simply return `[]`. -/
theorem C8_empty_on_failure (inp : LoanInput)
    (h : calculate_mortgage inp = none) :
    generate_yearly inp = [] ∧ generate_monthly inp = [] := by
  constructor
  · unfold generate_yearly generate_yearly_aux
    rw [h]
    simp
  · unfold generate_monthly generate_monthly_aux
    rw [h]
    simp

/-- C8 witness: the zero-term input makes the summary fail, and both
generators return empty schedules. -/
theorem C8_empty_on_failure_witness :
    generate_yearly zeroTermInput = [] ∧ generate_monthly zeroTermInput = [] :=
  C8_empty_on_failure zeroTermInput (C7_amended zeroTermInput (by decide))

/-! ### Claim C10 — zero-rate loans accrue zero total interest -/

/-- C10 (confirmed).  With effective annual rate 0 and effective term
≥ 1 year the payment is `loanAmount / termMonths` and
`totalInterestPaid = payment * termMonths - loanAmount = 0` exactly, in
exact (rational) arithmetic. -/
theorem C10_zero_rate_interest (inp : LoanInput) (s : MortgageSummary)
    (h0 : effRate inp = 0) (h1 : 1 ≤ effYears inp)
    (hs : calculate_mortgage inp = some s) :
    s.totalInterestPaid = 0 := by
  have hr : monthlyRate inp = 0 := by simp [monthlyRate, h0]
  have hT : ((termMonths inp : ℤ) : ℚ) ≠ 0 := by
    have : (12 : ℤ) ≤ termMonths inp := by
      unfold termMonths; omega
    intro hc
    rw [Int.cast_eq_zero] at hc
    omega
  unfold calculate_mortgage at hs
  split at hs
  · exact absurd hs (by simp)
  · rcases Option.map_eq_some'.mp hs with ⟨d0, _, rfl⟩
    show fixedPayment (loanAmount inp) (monthlyRate inp) (termMonths inp) *
        ((termMonths inp : ℤ) : ℚ) - loanAmount inp = 0
    rw [hr]
    unfold fixedPayment
    rw [if_neg (by norm_num)]
    rw [div_mul_cancel₀ _ hT]
    ring

/-- C10 witness: a 1200-unit interest-free 1-year loan has total
interest exactly 0. -/
theorem C10_zero_rate_interest_witness :
    ((calculate_mortgage simpleInput).map (fun s => s.totalInterestPaid)) = some 0 := by
  cases hs : calculate_mortgage simpleInput with
  | none => exact absurd hs (by decide)
  | some s =>
    simpa [hs] using
      C10_zero_rate_interest simpleInput s (by decide) (by decide) hs

/-! ### Claim C9 — monthly date labels -/

/-- C9 (code bug exhibit).  The claim says each emitted monthly row is
labelled with the start date advanced month-by-month, i.e. the row for
month `m` carries `startDate + (m-1)` months.  But the skipped months
`continue` at line 326 BEFORE the date advancement of lines 347–350, so
`current_date` only advances on emitted rows.  For a 3-year loan from
Jan 2025 the last-year window rows (months 25..36) are labelled
Jan..Dec 2026 instead of Jan..Dec 2027; in particular month 25 is
labelled `(1, 2026)` where the claim requires January 2027 (= start
advanced by 24 months). -/
theorem C9_code_bug_eval :
    threeYearInput.startDate = ⟨2025, 1, 1⟩ ∧
    (generate_monthly threeYearInput).map
        (fun x => (x.monthIdx, x.labelMonth, x.labelYear)) =
      ((List.range' 1 12).map (fun m => (m, m, (2025:ℤ)))) ++
        ((List.range' 25 12).map (fun m => (m, m - 24, (2026:ℤ)))) ∧
    (generate_monthly threeYearInput).map
        (fun x => (x.monthIdx, x.labelMonth, x.labelYear)) ≠
      ((List.range' 1 12).map (fun m => (m, m, (2025:ℤ)))) ++
        ((List.range' 25 12).map (fun m => (m, m - 24, (2027:ℤ)))) := by
  exact ⟨by decide, by decide, by decide⟩

/-! ### Claim C4 — state updates on skipped months, early termination -/

/-- When the pre-clamp balance goes negative, the month step clamps
to 0. -/
lemma monthStep_of_neg {r pay b : ℚ} (h : b - (pay - b * r) < 0) :
    monthStep r pay b = 0 := by
  unfold monthStep
  rw [if_pos h]

/-- When the pre-clamp balance stays non-negative, the month step is the
plain linear recurrence. -/
lemma monthStep_of_nonneg {r pay b : ℚ} (h : ¬ b - (pay - b * r) < 0) :
    monthStep r pay b = b - (pay - b * r) := by
  unfold monthStep
  rw [if_neg h]

/-- Characterization of the monthly loop's output rows by the iterated
month step: starting the loop at month `k+1` with balance
`monthStep^[k] l`, every emitted row for month `m` reports exactly the
`m`-fold iterate as its ending balance (so skipped months DID apply the
recurrence), together with the matching interest and principal; and any
row with non-positive balance is the last row (the `break` at line
352–353). -/
lemma monthlyLoop_iter (r pay l : ℚ) (total : ℕ) :
    ∀ rem k cur rows,
      monthlyLoop r pay total rem (k + 1) cur ((monthStep r pay)^[k] l) = some rows →
      (∀ x ∈ rows,
        x.endingBalance = (monthStep r pay)^[x.monthIdx] l ∧
        x.interest = (monthStep r pay)^[x.monthIdx - 1] l * r ∧
        x.principal = (monthStep r pay)^[x.monthIdx - 1] l -
          (monthStep r pay)^[x.monthIdx] l) ∧
      (∀ i, ∀ hi : i < rows.length,
        (rows.get ⟨i, hi⟩).endingBalance ≤ 0 → i = rows.length - 1) := by
  intro rem
  induction rem with
  | zero =>
    intro k cur rows h
    simp only [monthlyLoop] at h
    rw [← Option.some_inj.mp h]
    refine ⟨by simp, ?_⟩
    intro i hi
    simp at hi
  | succ n ih =>
    intro k cur rows h
    have hiter : (monthStep r pay)^[k + 1] l =
        if (monthStep r pay)^[k] l - (pay - (monthStep r pay)^[k] l * r) < 0
        then (0:ℚ)
        else (monthStep r pay)^[k] l - (pay - (monthStep r pay)^[k] l * r) := by
      rw [Function.iterate_succ_apply']
      rfl
    simp only [monthlyLoop] at h
    split at h
    · -- emitted month
      rcases hnext : nextMonth cur with _ | cur1
      · rw [hnext] at h; simp at h
      · rw [hnext, Option.some_bind] at h
        split at h
        next hclamp =>
          have hstep : (monthStep r pay)^[k + 1] l = 0 := by
            rw [hiter, if_pos hclamp]
          split at h
          next hz =>
            rw [← Option.some_inj.mp h]
            constructor
            · intro x hx
              rcases List.mem_cons.mp hx with rfl | hx1
              · refine ⟨by rw [hstep], by simp, ?_⟩
                simp only [Nat.add_sub_cancel]
                rw [hstep]
                ring
              · simp at hx1
            · intro i hi _
              simp only [List.length_cons, List.length_nil] at hi ⊢
              omega
          next hz => exact absurd (le_refl (0:ℚ)) hz
        next hclamp =>
          have hstep : (monthStep r pay)^[k + 1] l =
              (monthStep r pay)^[k] l - (pay - (monthStep r pay)^[k] l * r) := by
            rw [hiter, if_neg hclamp]
          split at h
          next hz =>
            rw [← Option.some_inj.mp h]
            constructor
            · intro x hx
              rcases List.mem_cons.mp hx with rfl | hx1
              · refine ⟨by rw [hstep], by simp, ?_⟩
                simp only [Nat.add_sub_cancel]
                rw [hstep]
                ring
              · simp at hx1
            · intro i hi _
              simp only [List.length_cons, List.length_nil] at hi ⊢
              omega
          next hz =>
            rcases Option.map_eq_some'.mp h with ⟨rest, hrest, rfl⟩
            rw [← hstep] at hrest
            have hrec := ih (k + 1) cur1 rest hrest
            constructor
            · intro x hx
              rcases List.mem_cons.mp hx with rfl | hx1
              · refine ⟨by rw [hstep], by simp, ?_⟩
                simp only [Nat.add_sub_cancel]
                rw [hstep]
                ring
              · exact hrec.1 x hx1
            · intro i hi hbal
              cases i with
              | zero => exact absurd hbal hz
              | succ j =>
                have hj : j < rest.length := by
                  simp at hi; omega
                have hlast := hrec.2 j hj hbal
                simp only [List.length_cons]
                omega
    · -- skipped month: the balance still advances by the same step
      split at h
      next hclamp =>
        have hstep : (monthStep r pay)^[k + 1] l = 0 := by
          rw [hiter, if_pos hclamp]
        rw [← hstep] at h
        exact ih (k + 1) cur rows h
      next hclamp =>
        have hstep : (monthStep r pay)^[k + 1] l =
            (monthStep r pay)^[k] l - (pay - (monthStep r pay)^[k] l * r) := by
          rw [hiter, if_neg hclamp]
        rw [← hstep] at h
        exact ih (k + 1) cur rows h

/-- C4 (confirmed).  In `generate_monthly` every emitted row for month
`m` carries exactly the `m`-fold iterate of the shared per-month balance
recurrence applied to the loan amount — months outside the sampling
window advance the state but produce no row — and any row whose balance
has reached 0 is the final row: the loop breaks at payoff and appends no
trailing rows. -/
theorem C4_state_update (inp : LoanInput) :
    (∀ x ∈ generate_monthly inp,
      x.endingBalance =
        (monthStep (monthlyRate inp)
          (fixedPayment (loanAmount inp) (monthlyRate inp)
            (termMonths inp)))^[x.monthIdx] (loanAmount inp) ∧
      x.interest =
        (monthStep (monthlyRate inp)
          (fixedPayment (loanAmount inp) (monthlyRate inp)
            (termMonths inp)))^[x.monthIdx - 1] (loanAmount inp) *
          monthlyRate inp ∧
      x.principal =
        (monthStep (monthlyRate inp)
          (fixedPayment (loanAmount inp) (monthlyRate inp)
            (termMonths inp)))^[x.monthIdx - 1] (loanAmount inp) -
        (monthStep (monthlyRate inp)
          (fixedPayment (loanAmount inp) (monthlyRate inp)
            (termMonths inp)))^[x.monthIdx] (loanAmount inp)) ∧
    (∀ i, ∀ hi : i < (generate_monthly inp).length,
      ((generate_monthly inp).get ⟨i, hi⟩).endingBalance ≤ 0 →
      i = (generate_monthly inp).length - 1) := by
  unfold generate_monthly
  rcases haux : generate_monthly_aux inp with _ | rows
  · refine ⟨by simp, ?_⟩
    intro i hi
    simp at hi
  · simp only [Option.getD_some]
    unfold generate_monthly_aux at haux
    split at haux
    · rw [← Option.some_inj.mp haux]
      refine ⟨by simp, ?_⟩
      intro i hi
      simp at hi
    · split at haux
      · exact absurd haux (by simp)
      · have h0 : loanAmount inp =
            (monthStep (monthlyRate inp)
              (fixedPayment (loanAmount inp) (monthlyRate inp)
                (termMonths inp)))^[0] (loanAmount inp) := rfl
        rw [h0] at haux
        exact monthlyLoop_iter (monthlyRate inp)
          (fixedPayment (loanAmount inp) (monthlyRate inp) (termMonths inp))
          (loanAmount inp) (termMonths inp).toNat (termMonths inp).toNat 0
          inp.startDate rows haux

/-- C4 witness: the characterization applied to the first row of a
concrete interest-free loan. -/
theorem C4_state_update_witness :
    (⟨1, 1, 2024, 100, 0, 1100⟩ : MonthRow) ∈ generate_monthly simpleInput ∧
    ((⟨1, 1, 2024, 100, 0, 1100⟩ : MonthRow).endingBalance =
      (monthStep (monthlyRate simpleInput)
        (fixedPayment (loanAmount simpleInput) (monthlyRate simpleInput)
          (termMonths simpleInput)))^[(⟨1, 1, 2024, 100, 0, 1100⟩ :
            MonthRow).monthIdx] (loanAmount simpleInput) ∧
    (⟨1, 1, 2024, 100, 0, 1100⟩ : MonthRow).interest =
      (monthStep (monthlyRate simpleInput)
        (fixedPayment (loanAmount simpleInput) (monthlyRate simpleInput)
          (termMonths simpleInput)))^[(⟨1, 1, 2024, 100, 0, 1100⟩ :
            MonthRow).monthIdx - 1] (loanAmount simpleInput) *
        monthlyRate simpleInput ∧
    (⟨1, 1, 2024, 100, 0, 1100⟩ : MonthRow).principal =
      (monthStep (monthlyRate simpleInput)
        (fixedPayment (loanAmount simpleInput) (monthlyRate simpleInput)
          (termMonths simpleInput)))^[(⟨1, 1, 2024, 100, 0, 1100⟩ :
            MonthRow).monthIdx - 1] (loanAmount simpleInput) -
      (monthStep (monthlyRate simpleInput)
        (fixedPayment (loanAmount simpleInput) (monthlyRate simpleInput)
          (termMonths simpleInput)))^[(⟨1, 1, 2024, 100, 0, 1100⟩ :
            MonthRow).monthIdx] (loanAmount simpleInput)) :=
  ⟨by decide, (C4_state_update simpleInput).1 _ (by decide)⟩

/-! ### Exact amortization trajectory and the sampling window (claim C3) -/

/-- First-component projection of an explicit pair (used to normalize
the accumulator pairs of the monthly loop). -/
lemma prodFst_mk (a b : ℚ) : (a, b).1 = a := rfl

/-- Second-component projection of an explicit pair. -/
lemma prodSnd_mk (a b : ℚ) : (a, b).2 = b := rfl

/-- Zero-rate closed form: the balance drops by `pay` every month. -/
lemma pureBal_rate_zero (pay l : ℚ) : ∀ m, pureBal 0 pay l m = l - m * pay := by
  intro m
  induction m with
  | zero => simp [pureBal]
  | succ n ih =>
    simp only [pureBal, ih]
    push_cast
    ring

/-- Positive-rate closed form, multiplied through by the payment
denominator `A - 1` (with `A = (1+r)^termMonths`): the balance after `m`
months is `l * (A - (1+r)^m) / (A - 1)`. -/
lemma pureBal_closed (r pay l A : ℚ) (hpay : pay * (A - 1) = l * (r * A)) :
    ∀ m, pureBal r pay l m * (A - 1) = l * (A - (1 + r) ^ m) := by
  intro m
  induction m with
  | zero => simp [pureBal]
  | succ n ih =>
    simp only [pureBal]
    linear_combination (1 + r) * ih - hpay

/-- Advancing a valid date with day ≤ 28 succeeds whenever the date is
strictly before December 9999, and moves the month position forward by
one. -/
lemma nextMonth_ok (cur : Date) (hv : cur.valid) (hd : cur.day ≤ 28)
    (hb : posM cur < 120000) :
    ∃ cur1, nextMonth cur = some cur1 ∧ cur1.valid ∧ cur1.day = cur.day ∧
      posM cur1 = posM cur + 1 := by
  unfold Date.valid validYMD at hv
  obtain ⟨h1, h2, h3, h4, h5, _⟩ := hv
  unfold posM at hb
  by_cases hm : cur.month = 12
  · have hy : cur.year ≤ 9998 := by omega
    have hval : validYMD (cur.year + 1) 1 cur.day :=
      ⟨by omega, by omega, le_refl 1, by omega, h5, by
        have := daysInMonth_ge_28 (cur.year + 1) 1
        omega⟩
    refine ⟨⟨cur.year + 1, 1, cur.day⟩, ?_, hval, rfl, ?_⟩
    · unfold nextMonth
      rw [if_pos hm]
      exact mkDate_isSome_of_valid hval
    · unfold posM
      simp only
      rw [hm]
      push_cast
      ring
  · have hval : validYMD cur.year (cur.month + 1) cur.day :=
      ⟨h1, h2, by omega, by omega, h5, by
        have := daysInMonth_ge_28 cur.year (cur.month + 1)
        omega⟩
    refine ⟨⟨cur.year, cur.month + 1, cur.day⟩, ?_, hval, rfl, ?_⟩
    · unfold nextMonth
      rw [if_neg hm]
      exact mkDate_isSome_of_valid hval
    · unfold posM
      push_cast
      ring

/-- Full run of the monthly loop on the exact trajectory: if the pure
balance is positive strictly before month `T'` and exactly zero at
month `T'`, and the running date is valid with day ≤ 28 and enough room
before December 9999, the loop completes without dropping months: its
rows are exactly the window months among the remaining ones. -/
lemma monthlyLoop_run (r pay l : ℚ) (T' : ℕ)
    (hpos : ∀ k, k < T' → 0 < pureBal r pay l k)
    (hzero : pureBal r pay l T' = 0) :
    ∀ rem k cur, k + rem = T' →
      cur.valid → cur.day ≤ 28 →
      posM cur + (((List.range' (k + 1) rem).filter
        (fun x => decide (x ∈ monthsToShow T'))).length : ℤ) ≤ 120000 →
      ∃ rows,
        monthlyLoop r pay T' rem (k + 1) cur (pureBal r pay l k) = some rows ∧
        rows.map (fun x => x.monthIdx) =
          (List.range' (k + 1) rem).filter (fun x => decide (x ∈ monthsToShow T')) := by
  intro rem
  induction rem with
  | zero =>
    intro k cur _ _ _ _
    exact ⟨[], by simp [monthlyLoop], by simp⟩
  | succ n ih =>
    intro k cur hk hv hd hb
    have hkT : k < T' := by omega
    have hstep : pureBal r pay l (k + 1) =
        pureBal r pay l k - (pay - pureBal r pay l k * r) := rfl
    have hnn : 0 ≤ pureBal r pay l (k + 1) := by
      rcases Nat.lt_or_ge (k + 1) T' with h1 | h1
      · exact le_of_lt (hpos _ h1)
      · have he : k + 1 = T' := by omega
        rw [he, hzero]
    have hnn' : ¬ pureBal r pay l k - (pay - pureBal r pay l k * r) < 0 :=
      not_lt.mpr (hstep ▸ hnn)
    by_cases hw : (k + 1) ∈ monthsToShow T'
    · have hcnt : (List.range' (k + 1) (n + 1)).filter
          (fun x => decide (x ∈ monthsToShow T')) =
          (k + 1) :: (List.range' (k + 1 + 1) n).filter
            (fun x => decide (x ∈ monthsToShow T')) := by
        rw [List.range'_succ, List.filter_cons, if_pos (by simpa using hw)]
      have hpcur : posM cur < 120000 := by
        rw [hcnt] at hb
        simp only [List.length_cons] at hb
        push_cast at hb
        omega
      obtain ⟨cur1, hnext, hv1, hd1, hp1⟩ := nextMonth_ok cur hv hd hpcur
      rcases Nat.lt_or_ge (k + 1) T' with hlt | hge
      · -- not the final month: the loop continues after the row
        have hpos1 : 0 < pureBal r pay l (k + 1) := hpos _ hlt
        obtain ⟨rows1, hrows1, hmap1⟩ := ih (k + 1) cur1 (by omega) hv1
          (by rw [hd1]; exact hd) (by
            rw [hcnt] at hb
            simp only [List.length_cons] at hb
            push_cast at hb ⊢
            omega)
        refine ⟨⟨k + 1, cur.month, cur.year, pay - pureBal r pay l k * r,
          pureBal r pay l k * r, pureBal r pay l (k + 1)⟩ :: rows1, ?_, ?_⟩
        · simp only [monthlyLoop]
          rw [if_pos hw, hnext, Option.some_bind, if_neg hnn']
          simp only [prodFst_mk, prodSnd_mk]
          rw [← hstep]
          rw [if_neg (not_le.mpr hpos1), hrows1]
          rfl
        · simp only [List.map_cons, hmap1, hcnt]
      · -- final month: the balance hits exactly zero and the loop breaks
        have he : k + 1 = T' := by omega
        have hn0 : n = 0 := by omega
        have hz : pureBal r pay l (k + 1) = 0 := by rw [he, hzero]
        refine ⟨[⟨k + 1, cur.month, cur.year, pay - pureBal r pay l k * r,
          pureBal r pay l k * r, pureBal r pay l (k + 1)⟩], ?_, ?_⟩
        · simp only [monthlyLoop]
          rw [if_pos hw, hnext, Option.some_bind, if_neg hnn']
          simp only [prodFst_mk, prodSnd_mk]
          rw [← hstep]
          rw [if_pos (le_of_eq hz)]
        · subst hn0
          rw [hcnt]
          simp
    · have hcnt : (List.range' (k + 1) (n + 1)).filter
          (fun x => decide (x ∈ monthsToShow T')) =
          (List.range' (k + 1 + 1) n).filter
            (fun x => decide (x ∈ monthsToShow T')) := by
        rw [List.range'_succ, List.filter_cons, if_neg (by simpa using hw)]
      obtain ⟨rows1, hrows1, hmap1⟩ := ih (k + 1) cur (by omega) hv hd (by
        rw [hcnt] at hb
        exact hb)
      refine ⟨rows1, ?_, by rw [hmap1, hcnt]⟩
      simp only [monthlyLoop]
      rw [if_neg hw, if_neg hnn']
      rw [← hstep]
      exact hrows1

/-- Every sampled month lies between 1 and the total term. -/
lemma monthsToShow_subset (T : ℕ) : ∀ x ∈ monthsToShow T, 1 ≤ x ∧ x ≤ T := by
  intro x hx
  unfold monthsToShow at hx
  rcases List.mem_append.mp hx with h1 | h2
  · rcases List.mem_range'.mp h1 with ⟨i, hi, rfl⟩
    omega
  · by_cases hT : 12 < T
    · rw [if_pos hT] at h2
      rcases List.mem_range'.mp h2 with ⟨i, hi, rfl⟩
      omega
    · rw [if_neg hT] at h2
      simp at h2

/-- The sampled window is listed in (weakly) increasing order. -/
lemma monthsToShow_sorted (T : ℕ) : List.Pairwise (· ≤ ·) (monthsToShow T) := by
  unfold monthsToShow
  apply List.pairwise_append.mpr
  refine ⟨List.pairwise_le_range' 1 (min 12 T), ?_, ?_⟩
  · by_cases hT : 12 < T
    · rw [if_pos hT]
      exact List.pairwise_le_range' _ _
    · rw [if_neg hT]
      exact List.Pairwise.nil
  · intro x hx y hy
    rcases List.mem_range'.mp hx with ⟨i, hi, rfl⟩
    by_cases hT : 12 < T
    · rw [if_pos hT] at hy
      rcases List.mem_range'.mp hy with ⟨j, hj, rfl⟩
      omega
    · rw [if_neg hT] at hy
      simp at hy

/-- The sampled window never repeats a month index (the two halves are
disjoint: the first stops at 12, the second starts at ≥ 13). -/
lemma monthsToShow_nodup (T : ℕ) : (monthsToShow T).Nodup := by
  unfold monthsToShow
  apply List.Nodup.append
  · exact List.nodup_range' _ _
  · by_cases hT : 12 < T
    · rw [if_pos hT]
      exact List.nodup_range' _ _
    · rw [if_neg hT]
      exact List.nodup_nil
  · intro x hx hy
    rcases List.mem_range'.mp hx with ⟨i, hi, rfl⟩
    by_cases hT : 12 < T
    · rw [if_pos hT] at hy
      rcases List.mem_range'.mp hy with ⟨j, hj, he⟩
      omega
    · rw [if_neg hT] at hy
      simp at hy

/-- Filtering the full month range by window membership reproduces
exactly the window list (same members, both sorted without
duplicates). -/
lemma filter_window (T : ℕ) :
    (List.range' 1 T).filter (fun x => decide (x ∈ monthsToShow T)) =
      monthsToShow T := by
  apply List.eq_of_perm_of_sorted (r := (· ≤ ·))
  · apply (List.perm_ext_iff_of_nodup ((List.nodup_range' 1 T).filter _)
      (monthsToShow_nodup T)).mpr
    intro a
    rw [List.mem_filter]
    simp only [decide_eq_true_eq]
    constructor
    · exact fun h => h.2
    · intro h
      refine ⟨?_, h⟩
      have hb := monthsToShow_subset T a h
      exact List.mem_range'.mpr ⟨a - 1, by omega, by omega⟩
  · exact List.Pairwise.sublist (List.filter_sublist _) (List.pairwise_le_range' 1 T)
  · exact monthsToShow_sorted T

/-- Length of the sampled window. -/
lemma monthsToShow_length (T : ℕ) :
    (monthsToShow T).length = min 12 T + min (T - 12) 12 := by
  unfold monthsToShow
  rw [List.length_append, List.length_range']
  by_cases hT : 12 < T
  · rw [if_pos hT, List.length_range']
    omega
  · rw [if_neg hT]
    simp only [List.length_nil]
    omega

/-! ### Claim C3 — monthly schedule row set and count -/

/-- C3 (counterexample).  The claim quantifies over every `LoanInput`,
but for `homeValue = downPayment` (loan amount 0, here with a 24-month
term) the monthly loop emits a single all-zero row for month 1 and then
breaks, instead of the claimed `min(12,24) + min(12,12) = 24` window
rows. -/
theorem C3_counterexample :
    (termMonths zeroLoanInput).toNat = 24 ∧
    (generate_monthly zeroLoanInput).length = 1 ∧
    (1:ℕ) ≠ min 12 24 + min (24 - 12) 12 := by
  exact ⟨by decide, by decide, by decide⟩

/-- C3 (amended).  For a valid start date with day ≤ 28, a successful
summary, a positive loan amount, a non-negative effective rate and a
positive effective term, the monthly schedule emits exactly the window
months `{1..min(12,T)} ∪ {T-11..T when T > 12}` in order, so its row
count is `min(12,T) + min(T-12,12) ≤ 24` and no month appears twice. -/
theorem C3_amended (inp : LoanInput)
    (hv : inp.startDate.valid)
    (hday : inp.startDate.day ≤ 28)
    (hs : (calculate_mortgage inp).isSome)
    (hL : 0 < loanAmount inp)
    (hr : 0 ≤ effRate inp)
    (hy : 1 ≤ effYears inp) :
    (generate_monthly inp).map (fun x => x.monthIdx) =
      monthsToShow (termMonths inp).toNat ∧
    (generate_monthly inp).length =
      min 12 (termMonths inp).toNat + min ((termMonths inp).toNat - 12) 12 ∧
    (generate_monthly inp).length ≤ 24 ∧
    ((generate_monthly inp).map (fun x => x.monthIdx)).Nodup := by
  have hT : (0:ℤ) < termMonths inp := by unfold termMonths; omega
  have hT'' : ((termMonths inp).toNat : ℤ) = termMonths inp :=
    Int.toNat_of_nonneg (le_of_lt hT)
  have hTn : 12 ≤ (termMonths inp).toNat := by
    have h12 : (12:ℤ) ≤ termMonths inp := by unfold termMonths; omega
    omega
  have hr0 : 0 ≤ monthlyRate inp := by
    unfold monthlyRate
    positivity
  -- the positive / zero trajectory facts, by cases on the rate sign
  have htraj :
      (∀ k, k < (termMonths inp).toNat →
        0 < pureBal (monthlyRate inp)
          (fixedPayment (loanAmount inp) (monthlyRate inp) (termMonths inp))
          (loanAmount inp) k) ∧
      pureBal (monthlyRate inp)
          (fixedPayment (loanAmount inp) (monthlyRate inp) (termMonths inp))
          (loanAmount inp) (termMonths inp).toNat = 0 := by
    rcases hr0.eq_or_lt with hre | hrl
    · -- zero rate: linear amortization
      have hre' : monthlyRate inp = 0 := hre.symm
      have hpay0 : fixedPayment (loanAmount inp) (monthlyRate inp) (termMonths inp) =
          loanAmount inp / (((termMonths inp).toNat : ℕ) : ℚ) := by
        unfold fixedPayment
        rw [if_neg (by rw [hre']; exact lt_irrefl 0), ← hT'']
        push_cast
        rfl
      have hTq : (0:ℚ) < (((termMonths inp).toNat : ℕ) : ℚ) := by
        exact_mod_cast Nat.lt_of_lt_of_le (by norm_num) hTn
      constructor
      · intro k hk
        rw [hpay0, hre', pureBal_rate_zero]
        have hkq : ((k:ℕ) : ℚ) < (((termMonths inp).toNat : ℕ) : ℚ) := by
          exact_mod_cast hk
        have hkey : ((k:ℕ) : ℚ) * (loanAmount inp / (((termMonths inp).toNat : ℕ) : ℚ)) <
            (((termMonths inp).toNat : ℕ) : ℚ) *
              (loanAmount inp / (((termMonths inp).toNat : ℕ) : ℚ)) :=
          mul_lt_mul_of_pos_right hkq (div_pos hL hTq)
        have hTl : (((termMonths inp).toNat : ℕ) : ℚ) *
            (loanAmount inp / (((termMonths inp).toNat : ℕ) : ℚ)) = loanAmount inp := by
          field_simp
        linarith
      · rw [hpay0, hre', pureBal_rate_zero]
        field_simp
    · -- positive rate: geometric closed form
      have h1r : 1 < 1 + monthlyRate inp := by linarith
      have hzp : (1 + monthlyRate inp) ^ (termMonths inp : ℤ) =
          (1 + monthlyRate inp) ^ ((termMonths inp).toNat : ℕ) := by
        conv_lhs => rw [← hT'']
        rw [zpow_natCast]
      have hA : 1 < (1 + monthlyRate inp) ^ ((termMonths inp).toNat : ℕ) :=
        one_lt_pow₀ h1r (by omega)
      have hA1 : (1 + monthlyRate inp) ^ ((termMonths inp).toNat : ℕ) - 1 ≠ 0 := by
        intro hc
        have : (1 + monthlyRate inp) ^ ((termMonths inp).toNat : ℕ) = 1 := by linarith
        linarith
      have hpayA : fixedPayment (loanAmount inp) (monthlyRate inp) (termMonths inp) *
          ((1 + monthlyRate inp) ^ ((termMonths inp).toNat : ℕ) - 1) =
          loanAmount inp * (monthlyRate inp *
            (1 + monthlyRate inp) ^ ((termMonths inp).toNat : ℕ)) := by
        unfold fixedPayment
        rw [if_pos hrl, hzp]
        exact div_mul_cancel₀ _ hA1
      have hclosed := pureBal_closed (monthlyRate inp)
        (fixedPayment (loanAmount inp) (monthlyRate inp) (termMonths inp))
        (loanAmount inp) ((1 + monthlyRate inp) ^ ((termMonths inp).toNat : ℕ)) hpayA
      constructor
      · intro k hk
        have hBk : (1 + monthlyRate inp) ^ k <
            (1 + monthlyRate inp) ^ ((termMonths inp).toNat : ℕ) :=
          pow_lt_pow_right₀ h1r hk
        have h2 : 0 < pureBal (monthlyRate inp)
            (fixedPayment (loanAmount inp) (monthlyRate inp) (termMonths inp))
            (loanAmount inp) k *
            ((1 + monthlyRate inp) ^ ((termMonths inp).toNat : ℕ) - 1) := by
          rw [hclosed k]
          exact mul_pos hL (by linarith)
        by_contra hc
        push_neg at hc
        nlinarith
      · have h2 := hclosed (termMonths inp).toNat
        rw [sub_self, mul_zero] at h2
        rcases mul_eq_zero.mp h2 with h3 | h3
        · exact h3
        · exact absurd h3 hA1
  -- invert the generator down to the monthly loop
  have hnotnone : ¬(calculate_mortgage inp).isNone = true := by
    rcases Option.isSome_iff_exists.mp hs with ⟨s, hcal⟩
    rw [hcal]
    simp
  have hguard : ¬ divGuard (monthlyRate inp) (termMonths inp) = true := by
    rw [divGuard_false_of_isSome hs]
    simp
  have hb0 : posM inp.startDate +
      (((List.range' 1 (termMonths inp).toNat).filter
        (fun x => decide (x ∈ monthsToShow (termMonths inp).toNat))).length : ℤ) ≤
      120000 := by
    have hfl : ((List.range' 1 (termMonths inp).toNat).filter
        (fun x => decide (x ∈ monthsToShow (termMonths inp).toNat))).length ≤
        (termMonths inp).toNat := by
      have h := List.length_filter_le
        (fun x => decide (x ∈ monthsToShow (termMonths inp).toNat))
        (List.range' 1 (termMonths inp).toNat)
      rw [List.length_range'] at h
      exact h
    have hpay := payoffYear_bounds hs
    have hmon : (inp.startDate.month : ℤ) ≤ 12 := by
      have := hv.2.2.2.1
      omega
    have hterm : termMonths inp = effYears inp * 12 := rfl
    unfold posM
    omega
  obtain ⟨rows, hrows, hmap⟩ := monthlyLoop_run (monthlyRate inp)
    (fixedPayment (loanAmount inp) (monthlyRate inp) (termMonths inp))
    (loanAmount inp) (termMonths inp).toNat htraj.1 htraj.2
    (termMonths inp).toNat 0 inp.startDate (by omega) hv hday hb0
  have hgen : generate_monthly inp = rows := by
    unfold generate_monthly generate_monthly_aux
    rw [if_neg hnotnone, if_neg hguard]
    rw [show (0:ℕ) + 1 = 1 from rfl] at hrows
    rw [show pureBal (monthlyRate inp)
      (fixedPayment (loanAmount inp) (monthlyRate inp) (termMonths inp))
      (loanAmount inp) 0 = loanAmount inp from rfl] at hrows
    rw [hrows]
    rfl
  rw [show (0:ℕ) + 1 = 1 from rfl] at hmap
  have hmap' : (generate_monthly inp).map (fun x => x.monthIdx) =
      monthsToShow (termMonths inp).toNat := by
    rw [hgen, hmap, filter_window]
  refine ⟨hmap', ?_, ?_, ?_⟩
  · have hlen : ((generate_monthly inp).map (fun x => x.monthIdx)).length =
        (monthsToShow (termMonths inp).toNat).length := by rw [hmap']
    rw [List.length_map, monthsToShow_length] at hlen
    exact hlen
  · have hlen : ((generate_monthly inp).map (fun x => x.monthIdx)).length =
        (monthsToShow (termMonths inp).toNat).length := by rw [hmap']
    rw [List.length_map, monthsToShow_length] at hlen
    omega
  · rw [hmap']
    exact monthsToShow_nodup _

/-- C3 witness: the amended theorem applied to a concrete interest-free
1-year loan (12 months, window = all 12 months). -/
theorem C3_amended_witness :
    0 < loanAmount simpleInput ∧
    ((generate_monthly simpleInput).map (fun x => x.monthIdx) =
      monthsToShow (termMonths simpleInput).toNat ∧
    (generate_monthly simpleInput).length =
      min 12 (termMonths simpleInput).toNat +
        min ((termMonths simpleInput).toNat - 12) 12 ∧
    (generate_monthly simpleInput).length ≤ 24 ∧
    ((generate_monthly simpleInput).map (fun x => x.monthIdx)).Nodup) :=
  ⟨by decide, C3_amended simpleInput (by decide) (by decide) (by decide)
    (by decide) (by decide) (by decide)⟩

end MortgageVerification
